import Mathlib

/-!
Verification of the TF-IDF lexical retriever from `rag.ipynb`.

The notebook builds `vectorizer = TfidfVectorizer()`, fits it on a five-document
corpus (`vector_kb = vectorizer.fit_transform(corpus)`) and retrieves documents with

  def retrieve_documents(query, corpus, vectorizer, kb, top_n=3):
      query_vector = vectorizer.transform([query])
      cosine_similarities = cosine_similarity(query_vector, kb).flatten()
      related_docs_indices = cosine_similarities.argsort()[-top_n:][::-1]
      related_docs = [corpus[i] for i in related_docs_indices]
      return related_docs

The embedding below follows the scikit-learn defaults that this code relies on:

* tokenization: lowercase the document, then take the maximal runs of word
  characters (alphanumeric or underscore, pattern `\b\w\w+\b`) of length at
  least two;
* term weighting (`smooth_idf=True`, `sublinear_tf=False`): for term `t` in
  document `d`, `weight = tf(t, d) * (log((1 + N) / (1 + df(t))) + 1)`;
* `cosine_similarity` L2-normalizes both sides and maps an all-zero vector to
  an all-zero row (zero norms are guarded, not divided by), so an
  out-of-vocabulary query yields similarity 0 against every document;
* `argsort` sorts ascending. numpy's default quicksort is NOT stable and
  guarantees no particular order on exact ties (it only degenerates to a
  stable insertion sort on partitions of at most about 16 elements). The
  model fixes one definite sorted permutation — the lexicographic order on
  (value, index) — as a representative; general theorems are therefore only
  claimed for the program when their conclusion is independent of the tie
  order (permutation, length, non-strict descending order, strict-maximum
  position), while concrete evaluations of tied inputs are confined to tiny
  arrays (2 and 5 elements), where numpy is in the insertion-sort regime and
  does leave ties in index order;
* the Python slice `[-top_n:]` takes the whole list when `top_n = 0` or when
  `top_n` exceeds the length, and the last `top_n` entries otherwise.

Weights are modelled over `ℝ` (the code computes in floating point); the
discrete layer (tokenization, vocabulary, document frequencies, counts) is
computable so that concrete inputs evaluate by `decide`.
-/

namespace Rag

/-- A word character in the sense of the regex `\w`: alphanumeric or underscore. -/
def isWordChar (c : Char) : Bool := c.isAlphanum || c == '_'

/-- Collect the maximal runs of characters satisfying `p`; `acc` holds the
current run in reverse. Separator characters are dropped. -/
def splitRunsAux (p : Char → Bool) (acc : List Char) : List Char → List (List Char)
  | [] => if acc.isEmpty then [] else [acc.reverse]
  | c :: cs =>
    if p c then splitRunsAux p (c :: acc) cs
    else if acc.isEmpty then splitRunsAux p [] cs
    else acc.reverse :: splitRunsAux p [] cs

/-- The maximal runs of characters satisfying `p` in a character list. -/
def splitRuns (p : Char → Bool) (cs : List Char) : List (List Char) :=
  splitRunsAux p [] cs

/-- `TfidfVectorizer` tokenization with default settings: lowercase, then the
tokens matching `\b\w\w+\b`, i.e. maximal word-character runs of length ≥ 2. -/
def tokenize (s : String) : List String :=
  ((splitRuns isWordChar (s.data.map Char.toLower)).filter (fun r => 2 ≤ r.length)).map
    (fun r => String.mk r)

/-- The vocabulary: the distinct terms occurring in the corpus. (scikit-learn
stores it sorted alphabetically; the order never matters because vectors are
only combined through sums over the whole vocabulary.) -/
def vocab (c : List String) : List String := (c.map tokenize).flatten.dedup

/-- Document frequency: the number of corpus documents containing term `t`. -/
def df (c : List String) (t : String) : ℕ :=
  c.countP (fun d => (tokenize d).contains t)

/-- Smoothed inverse document frequency, the `TfidfVectorizer` default
(`smooth_idf=True`): `log((1 + N) / (1 + df t)) + 1`. -/
noncomputable def idf (c : List String) (t : String) : ℝ :=
  Real.log ((1 + (c.length : ℝ)) / (1 + (df c t : ℝ))) + 1

/-- The (pre-normalization) TF-IDF weight of term `t` for the text `d`:
raw term count times smoothed idf. `transform` applies the same formula to
queries, with counts taken over the fitted vocabulary. -/
noncomputable def docWeight (c : List String) (d : String) (t : String) : ℝ :=
  ((tokenize d).count t : ℝ) * idf c t

/-- Dot product of two weight functions over the fitted vocabulary. -/
noncomputable def dotV (c : List String) (f g : String → ℝ) : ℝ :=
  ((vocab c).map (fun t => f t * g t)).sum

/-- Euclidean norm of a weight function over the fitted vocabulary. -/
noncomputable def normV (c : List String) (f : String → ℝ) : ℝ :=
  Real.sqrt (dotV c f f)

/-- Cosine similarity as computed by `sklearn.metrics.pairwise.cosine_similarity`:
both vectors are L2-normalized, and a vector with zero norm is left as the zero
vector (so the similarity is 0), never divided by. -/
noncomputable def cosineSim (c : List String) (f g : String → ℝ) : ℝ :=
  if normV c f = 0 ∨ normV c g = 0 then 0
  else dotV c f g / (normV c f * normV c g)

/-- `cosine_similarity(query_vector, kb).flatten()`: the similarity of the
query against each corpus document, indexed by document position. -/
noncomputable def sims (c : List String) (q : String) : Fin c.length → ℝ :=
  fun i => cosineSim c (docWeight c q) (docWeight c (c.get i))

/-- The order used to model `argsort`: ascending by value, with the original
index as a tie-break to make the sorted permutation unique. numpy's default
quicksort argsort guarantees no tie order at all, so only conclusions that
are independent of the tie order (or concrete evaluations in numpy's small
insertion-sort regime, where ties do stay in index order) transfer to the
program. -/
def leLex {n : ℕ} (v : Fin n → ℝ) (i j : Fin n) : Prop :=
  v i < v j ∨ (v i = v j ∧ i ≤ j)

instance leLex_isTotal {n : ℕ} (v : Fin n → ℝ) : IsTotal (Fin n) (leLex v) where
  total i j := by
    rcases lt_trichotomy (v i) (v j) with h | h | h
    · exact Or.inl (Or.inl h)
    · rcases le_total i j with hij | hij
      · exact Or.inl (Or.inr ⟨h, hij⟩)
      · exact Or.inr (Or.inr ⟨h.symm, hij⟩)
    · exact Or.inr (Or.inl h)

instance leLex_isTrans {n : ℕ} (v : Fin n → ℝ) : IsTrans (Fin n) (leLex v) where
  trans i j k hij hjk := by
    rcases hij with h | ⟨he, hle⟩
    · rcases hjk with h' | ⟨he', _⟩
      · exact Or.inl (h.trans h')
      · exact Or.inl (he' ▸ h)
    · rcases hjk with h' | ⟨he', hle'⟩
      · exact Or.inl (he ▸ h')
      · exact Or.inr ⟨he.trans he', hle.trans hle'⟩

instance leLex_isAntisymm {n : ℕ} (v : Fin n → ℝ) : IsAntisymm (Fin n) (leLex v) where
  antisymm i j hij hji := by
    rcases hij with h | ⟨_, hle⟩
    · rcases hji with h' | ⟨he', _⟩
      · exact absurd (h.trans h') (lt_irrefl _)
      · exact absurd h (he'.symm ▸ lt_irrefl _)
    · rcases hji with h' | ⟨_, hle'⟩
      · exact absurd h' (by rw [‹v i = v j›]; exact lt_irrefl _)
      · exact le_antisymm hle hle'

noncomputable instance leLex_decidable {n : ℕ} (v : Fin n → ℝ) : DecidableRel (leLex v) :=
  fun _ _ => Classical.propDecidable _

/-- `numpy.argsort` on the similarity vector: the indices `0, …, n-1` sorted
ascending by value. Ties are resolved by index here only to pick a definite
representative of the sorted permutations; see `leLex`. -/
noncomputable def argsort {n : ℕ} (v : Fin n → ℝ) : List (Fin n) :=
  List.insertionSort (leLex v) (List.finRange n)

/-- The Python slice `l[-k:]` for `k ≥ 0`: the whole list when `k = 0`
(`l[-0:]` is `l[0:]`), otherwise the last `min k (length l)` elements. -/
def sliceLast {α : Type _} (l : List α) (k : ℕ) : List α :=
  if k = 0 then l else l.drop (l.length - k)

/-- `related_docs_indices = cosine_similarities.argsort()[-top_n:][::-1]`. -/
noncomputable def related_docs_indices (c : List String) (q : String) (top_n : ℕ) :
    List (Fin c.length) :=
  (sliceLast (argsort (sims c q)) top_n).reverse

/-- `retrieve_documents`: the documents at the selected indices, in order. -/
noncomputable def retrieve_documents (c : List String) (q : String) (top_n : ℕ) :
    List String :=
  (related_docs_indices c q top_n).map c.get

/-- The error raised at fit time. `TfidfVectorizer.fit_transform` raises
`ValueError` when the corpus yields an empty vocabulary — in particular on an
empty corpus; the spec names this condition `InvalidCorpus`. -/
inductive FitError : Type
  | InvalidCorpus : FitError

/-- `fit`: build the fitted state (the corpus together with its derived
vocabulary and weights) or fail with `InvalidCorpus`, producing no state. -/
def fit (c : List String) : Except FitError (List String) :=
  if vocab c = [] then Except.error FitError.InvalidCorpus else Except.ok c

/-- `retrieve_documents` with the fitted state threaded explicitly: the source
only reads `corpus`, `vectorizer` and `kb`, so the state is returned unchanged. -/
noncomputable def retrieveS (s : List String) (q : String) (top_n : ℕ) :
    List String × List String :=
  (retrieve_documents s q top_n, s)

/-- The corpus defined in the notebook. -/
def corpus : List String :=
  ["the cat sat on the mat", "the dog chased the cat", "the cat and dog played together",
    "the cat is sleeping", "the dog barked loudly"]

/-- The query defined in the notebook. -/
def query : String := "the dog chased who ?"

/-! ### General lemmas about the embedding -/

theorem argsort_perm {n : ℕ} (v : Fin n → ℝ) : (argsort v).Perm (List.finRange n) :=
  List.perm_insertionSort (leLex v) (List.finRange n)

theorem argsort_sorted {n : ℕ} (v : Fin n → ℝ) : List.Sorted (leLex v) (argsort v) :=
  List.sorted_insertionSort (leLex v) (List.finRange n)

theorem argsort_length {n : ℕ} (v : Fin n → ℝ) : (argsort v).length = n :=
  ((argsort_perm v).length_eq).trans (List.length_finRange n)

/-- `argsort` is the unique `leLex`-sorted permutation of the index list. -/
theorem argsort_eq {n : ℕ} (v : Fin n → ℝ) (l : List (Fin n))
    (hp : l.Perm (List.finRange n)) (hs : List.Sorted (leLex v) l) : argsort v = l :=
  List.eq_of_perm_of_sorted ((argsort_perm v).trans hp.symm) (argsort_sorted v) hs

/-- On a constant similarity vector, `argsort` returns the indices in their
original order (every comparison is a tie). -/
theorem argsort_const {n : ℕ} (v : Fin n → ℝ) (a : ℝ) (h : ∀ i, v i = a) :
    argsort v = List.finRange n := by
  refine argsort_eq v _ (List.Perm.refl _) ?_
  refine List.Pairwise.imp ?_ (List.pairwise_lt_finRange n)
  intro i j hij
  exact Or.inr ⟨(h i).trans (h j).symm, le_of_lt hij⟩

theorem sliceLast_zero {α : Type _} (l : List α) : sliceLast l 0 = l := by
  simp [sliceLast]

theorem sliceLast_of_length_le {α : Type _} (l : List α) (k : ℕ) (h : l.length ≤ k) :
    sliceLast l k = l := by
  unfold sliceLast
  rcases Nat.eq_zero_or_pos k with hk | hk
  · simp [hk]
  · rw [if_neg (Nat.pos_iff_ne_zero.1 hk), Nat.sub_eq_zero_of_le h, List.drop_zero]

theorem sliceLast_sublist {α : Type _} (l : List α) (k : ℕ) : (sliceLast l k).Sublist l := by
  unfold sliceLast
  split
  · exact List.Sublist.refl l
  · exact List.drop_sublist _ l

theorem length_sliceLast_of_pos {α : Type _} (l : List α) (k : ℕ) (hk : 0 < k) :
    (sliceLast l k).length = l.length - (l.length - k) := by
  unfold sliceLast
  rw [if_neg (Nat.pos_iff_ne_zero.1 hk), List.length_drop]

theorem getLast?_sliceLast {α : Type _} (l : List α) (k : ℕ) (hl : l ≠ []) :
    (sliceLast l k).getLast? = l.getLast? := by
  unfold sliceLast
  split
  · rfl
  · rw [List.getLast?_drop, if_neg]
    have hlen : 0 < l.length := List.length_pos.2 hl
    omega

/-- Unfolding `retrieve_documents` to the index pipeline. -/
theorem retrieve_documents_def (c : List String) (q : String) (k : ℕ) :
    retrieve_documents c q k = ((sliceLast (argsort (sims c q)) k).reverse).map c.get := rfl

/-- When the slice takes the whole of `argsort`, the result is a permutation
of the corpus. -/
theorem retrieve_perm_of_slice_all (c : List String) (q : String) (k : ℕ)
    (h : sliceLast (argsort (sims c q)) k = argsort (sims c q)) :
    (retrieve_documents c q k).Perm c := by
  rw [retrieve_documents_def, h]
  have h1 : ((argsort (sims c q)).reverse).Perm (List.finRange c.length) :=
    (List.reverse_perm _).trans (argsort_perm _)
  have h2 := h1.map c.get
  rwa [List.finRange_map_get c] at h2

/-- The number of retrieved documents: all `N` when `top_n = 0` (the slice
`[-0:]` is the whole array), otherwise `min top_n N`. This holds for any
sorted permutation, independently of how ties are ordered. -/
theorem retrieve_length (c : List String) (q : String) (k : ℕ) :
    (retrieve_documents c q k).length = if k = 0 then c.length else min k c.length := by
  rw [retrieve_documents_def, List.length_map, List.length_reverse]
  unfold sliceLast
  split
  · exact argsort_length _
  · rw [List.length_drop, argsort_length]
    omega

/-- Every retrieved document is a corpus document, independently of tie
order. -/
theorem retrieve_mem (c : List String) (q : String) (k : ℕ) :
    ∀ d ∈ retrieve_documents c q k, d ∈ c := by
  intro d hd
  rw [retrieve_documents_def] at hd
  rcases List.mem_map.1 hd with ⟨i, _, rfl⟩
  exact List.get_mem c i.1 i.2

theorem df_le_length (c : List String) (t : String) : df c t ≤ c.length :=
  List.countP_le_length _

theorem one_le_idf (c : List String) (t : String) : 1 ≤ idf c t := by
  unfold idf
  have h1 : (0 : ℝ) < 1 + (df c t : ℝ) := by positivity
  have h2 : (1 : ℝ) + (df c t : ℝ) ≤ 1 + (c.length : ℝ) := by
    have := df_le_length c t
    exact_mod_cast add_le_add_left (Nat.cast_le.2 this) 1
  have := Real.log_nonneg ((one_le_div h1).2 h2)
  linarith

theorem idf_pos (c : List String) (t : String) : 0 < idf c t :=
  lt_of_lt_of_le one_pos (one_le_idf c t)

theorem docWeight_nonneg (c : List String) (d t : String) : 0 ≤ docWeight c d t :=
  mul_nonneg (Nat.cast_nonneg _) (le_of_lt (idf_pos c t))

theorem dotV_self_nonneg (c : List String) (f : String → ℝ) : 0 ≤ dotV c f f := by
  refine List.sum_nonneg ?_
  intro x hx
  rcases List.mem_map.1 hx with ⟨t, _, rfl⟩
  exact mul_self_nonneg (f t)

theorem normV_nonneg (c : List String) (f : String → ℝ) : 0 ≤ normV c f :=
  Real.sqrt_nonneg _

theorem normV_sq (c : List String) (f : String → ℝ) : normV c f * normV c f = dotV c f f :=
  Real.mul_self_sqrt (dotV_self_nonneg c f)

theorem normV_pos (c : List String) (f : String → ℝ) (h : 0 < dotV c f f) : 0 < normV c f :=
  Real.sqrt_pos.2 h

/-- Cauchy–Schwarz for the vocabulary dot product. -/
theorem dotV_sq_le (c : List String) (f g : String → ℝ) :
    dotV c f g ^ 2 ≤ dotV c f f * dotV c g g := by
  have hnd : (vocab c).Nodup := List.nodup_dedup _
  have h1 : dotV c f g = ∑ t ∈ (vocab c).toFinset, f t * g t := by
    rw [dotV, ← List.sum_toFinset _ hnd]
  have h2 : dotV c f f = ∑ t ∈ (vocab c).toFinset, f t ^ 2 := by
    rw [dotV, ← List.sum_toFinset _ hnd]
    refine Finset.sum_congr rfl ?_
    intro t _
    ring
  have h3 : dotV c g g = ∑ t ∈ (vocab c).toFinset, g t ^ 2 := by
    rw [dotV, ← List.sum_toFinset _ hnd]
    refine Finset.sum_congr rfl ?_
    intro t _
    ring
  rw [h1, h2, h3]
  exact Finset.sum_mul_sq_le_sq_mul_sq _ _ _

/-- Cosine similarity never exceeds 1. -/
theorem cosineSim_le_one (c : List String) (f g : String → ℝ) : cosineSim c f g ≤ 1 := by
  unfold cosineSim
  split
  · exact zero_le_one
  · rename_i hn
    push_neg at hn
    have hf : 0 < normV c f := lt_of_le_of_ne (normV_nonneg c f) (Ne.symm hn.1)
    have hg : 0 < normV c g := lt_of_le_of_ne (normV_nonneg c g) (Ne.symm hn.2)
    rw [div_le_one (mul_pos hf hg)]
    have h1 : dotV c f g ≤ |dotV c f g| := le_abs_self _
    have h2 : |dotV c f g| = Real.sqrt (dotV c f g ^ 2) := (Real.sqrt_sq_eq_abs _).symm
    have h3 : Real.sqrt (dotV c f g ^ 2) ≤ Real.sqrt (dotV c f f * dotV c g g) :=
      Real.sqrt_le_sqrt (dotV_sq_le c f g)
    have h4 : Real.sqrt (dotV c f f * dotV c g g) = normV c f * normV c g :=
      Real.sqrt_mul (dotV_self_nonneg c f) _
    linarith

/-- Self-similarity is exactly 1 for a vector of positive norm. -/
theorem cosineSim_self (c : List String) (f : String → ℝ) (h : 0 < dotV c f f) :
    cosineSim c f f = 1 := by
  unfold cosineSim
  have hn : 0 < normV c f := normV_pos c f h
  rw [if_neg]
  · rw [normV_sq]
    exact div_self (ne_of_gt h)
  · push_neg
    exact ⟨ne_of_gt hn, ne_of_gt hn⟩

/-- A query sharing no term with the vocabulary has the all-zero weight
vector over the vocabulary. -/
theorem docWeight_oov (c : List String) (q : String)
    (h : ∀ t ∈ tokenize q, t ∉ vocab c) :
    ∀ t ∈ vocab c, docWeight c q t = 0 := by
  intro t ht
  have : t ∉ tokenize q := fun hmem => h t hmem ht
  rw [docWeight, List.count_eq_zero.2 this]
  simp

/-- A vector vanishing on the vocabulary has zero dot product with anything. -/
theorem dotV_eq_zero_left (c : List String) (f g : String → ℝ)
    (h : ∀ t ∈ vocab c, f t = 0) : dotV c f g = 0 := by
  refine List.sum_eq_zero ?_
  intro x hx
  rcases List.mem_map.1 hx with ⟨t, ht, rfl⟩
  rw [h t ht, zero_mul]

/-- All similarities of an out-of-vocabulary query are zero (the zero query
vector is guarded, not divided by). -/
theorem sims_oov (c : List String) (q : String)
    (h : ∀ t ∈ tokenize q, t ∉ vocab c) : ∀ i, sims c q i = 0 := by
  intro i
  unfold sims cosineSim
  rw [if_pos]
  left
  rw [normV, dotV_eq_zero_left c _ _ (docWeight_oov c q h), Real.sqrt_zero]

/-- For an out-of-vocabulary query the code returns the last
`min top_n N` corpus documents in reverse corpus order (all similarities tie
at zero, so `argsort` is the identity permutation). -/
theorem retrieve_oov (c : List String) (q : String) (k : ℕ)
    (h : ∀ t ∈ tokenize q, t ∉ vocab c) :
    retrieve_documents c q k = (sliceLast c k).reverse := by
  rw [retrieve_documents_def, argsort_const (sims c q) 0 (sims_oov c q h)]
  have hcomm : List.map c.get (sliceLast (List.finRange c.length) k) = sliceLast c k := by
    have hlen : (List.finRange c.length).length = c.length := List.length_finRange _
    unfold sliceLast
    split
    · exact List.finRange_map_get c
    · rw [List.map_drop, List.finRange_map_get c, hlen]
  calc List.map c.get (sliceLast (List.finRange c.length) k).reverse
      = (List.map c.get (sliceLast (List.finRange c.length) k)).reverse := by
        rw [List.map_reverse]
    _ = (sliceLast c k).reverse := by rw [hcomm]

/-- In a `leLex`-sorted list, every element other than the last is related to
the last element. -/
theorem sorted_rel_getLast {α : Type _} {r : α → α → Prop} :
    ∀ {l : List α} (hs : List.Sorted r l) (hl : l ≠ []) (x : α), x ∈ l →
      x ≠ l.getLast hl → r x (l.getLast hl)
  | [], _, hl, _, _, _ => absurd rfl hl
  | [a], _, _, x, hx, hne => by
      rcases List.mem_singleton.1 hx with rfl
      exact absurd rfl hne
  | a :: b :: l, hs, _, x, hx, hne => by
      have hlast : (a :: b :: l).getLast (by simp) = (b :: l).getLast (by simp) :=
        List.getLast_cons (by simp)
      rcases List.mem_cons.1 hx with rfl | hx'
      · rw [hlast]
        exact List.rel_of_sorted_cons hs _ (List.getLast_mem _)
      · rw [hlast]
        refine sorted_rel_getLast hs.of_cons (by simp) x hx' ?_
        rw [hlast] at hne
        exact hne

/-- If `v` attains a strict maximum at `i`, then `i` is the last element of
the ascending `argsort`. -/
theorem argsort_getLast_of_strict_max {n : ℕ} (v : Fin n → ℝ) (i : Fin n)
    (h : ∀ j, j ≠ i → v j < v i) : (argsort v).getLast? = some i := by
  have hne : argsort v ≠ [] := by
    have : (argsort v).length = n := argsort_length v
    intro hcon
    rw [hcon] at this
    exact absurd this.symm (Nat.pos_iff_ne_zero.1 i.pos)
  have hmem : i ∈ argsort v := (argsort_perm v).mem_iff.2 (List.mem_finRange i)
  have hmi : (argsort v).getLast hne = i := by
    by_contra hcon
    have hrel : leLex v i ((argsort v).getLast hne) :=
      sorted_rel_getLast (argsort_sorted v) hne i hmem (fun he => hcon he.symm)
    have hlt : v ((argsort v).getLast hne) < v i := h _ hcon
    rcases hrel with hlt' | ⟨he', _⟩
    · exact absurd (hlt.trans hlt') (lt_irrefl _)
    · rw [he'] at hlt
      exact absurd hlt (lt_irrefl _)
  rw [List.getLast?_eq_getLast _ hne, hmi]

/-- The first retrieved document is the one at the last index of the
ascending `argsort`, for every `top_n` (the slice keeps a non-empty suffix). -/
theorem retrieve_head (c : List String) (q : String) (k : ℕ) (hc : c ≠ []) :
    (retrieve_documents c q k).head? =
      ((argsort (sims c q)).getLast?).map c.get := by
  rw [retrieve_documents_def, List.head?_map, List.head?_reverse]
  congr 1
  refine getLast?_sliceLast _ k ?_
  intro hcon
  have : (argsort (sims c q)).length = c.length := argsort_length _
  rw [hcon] at this
  exact hc (List.length_eq_zero.1 this.symm)

/-- A query sharing at least one term with the vocabulary has a weight vector
of positive squared norm. -/
theorem dotV_self_pos_of_overlap (c : List String) (q : String)
    (h : ∃ t, t ∈ tokenize q ∧ t ∈ vocab c) :
    0 < dotV c (docWeight c q) (docWeight c q) := by
  rcases h with ⟨t, htq, htv⟩
  rcases List.append_of_mem htv with ⟨l₁, l₂, hsplit⟩
  have hw : 0 < docWeight c q t := by
    refine mul_pos ?_ (idf_pos c t)
    exact_mod_cast List.count_pos_iff.2 htq
  rw [dotV, hsplit, List.map_append, List.sum_append, List.map_cons, List.sum_cons]
  have h1 : 0 ≤ (l₁.map (fun u => docWeight c q u * docWeight c q u)).sum := by
    refine List.sum_nonneg ?_
    intro x hx
    rcases List.mem_map.1 hx with ⟨u, _, rfl⟩
    exact mul_self_nonneg _
  have h2 : 0 ≤ (l₂.map (fun u => docWeight c q u * docWeight c q u)).sum := by
    refine List.sum_nonneg ?_
    intro x hx
    rcases List.mem_map.1 hx with ⟨u, _, rfl⟩
    exact mul_self_nonneg _
  nlinarith [mul_pos hw hw]

/-! ### Claim theorems with general statements -/

/-- C4: for every non-empty corpus and every query containing at least one
vocabulary term, retrieving with `top_n` equal to the corpus size returns a
permutation of the full corpus (every document appears exactly once). -/
theorem retrieve_full_is_perm (c : List String) (q : String)
    (hc : c ≠ []) (hq : ∃ t ∈ tokenize q, t ∈ vocab c) :
    (retrieve_documents c q c.length).Perm c := by
  refine retrieve_perm_of_slice_all c q c.length ?_
  exact sliceLast_of_length_le _ _ (le_of_eq (argsort_length _))

theorem retrieve_full_is_perm_witness :
    (retrieve_documents ["cat dog"] "cat" (List.length ["cat dog"])).Perm ["cat dog"] :=
  retrieve_full_is_perm ["cat dog"] "cat" (by decide) (by decide)

/-- C5: for every corpus of size `N`, every query, and every `top_n > N`,
`retrieve` behaves as if `top_n` were clamped to `N`: the result is the same
as with `top_n = N` and has exactly `N` elements (the slice `[-top_n:]`
already takes the whole array). -/
theorem retrieve_topn_clamped (c : List String) (q : String) (k : ℕ)
    (hk : c.length < k) :
    retrieve_documents c q k = retrieve_documents c q c.length ∧
      (retrieve_documents c q k).length = c.length := by
  have h1 : sliceLast (argsort (sims c q)) k = argsort (sims c q) :=
    sliceLast_of_length_le _ _ (by rw [argsort_length]; omega)
  have h2 : sliceLast (argsort (sims c q)) c.length = argsort (sims c q) :=
    sliceLast_of_length_le _ _ (le_of_eq (argsort_length _))
  constructor
  · rw [retrieve_documents_def, retrieve_documents_def, h1, h2]
  · rw [retrieve_documents_def, h1, List.length_map, List.length_reverse, argsort_length]

theorem retrieve_topn_clamped_witness :
    retrieve_documents ["cat"] "cat" 5 = retrieve_documents ["cat"] "cat" (List.length ["cat"]) ∧
      (retrieve_documents ["cat"] "cat" 5).length = List.length ["cat"] :=
  retrieve_topn_clamped ["cat"] "cat" 5 (by decide)

/-- C6: fitting an empty corpus fails with `InvalidCorpus` and produces no
fitted state (the `Except.error` result carries neither vocabulary nor
weights). -/
theorem fit_empty_invalid : fit [] = Except.error FitError.InvalidCorpus := rfl

/-- C9: `retrieve` is a pure request/response computation over the fitted
state: it returns the state unchanged, and a second call on the state
resulting from the first returns the identical ordered result. -/
theorem retrieve_pure_idempotent (s : List String) (q : String) (k : ℕ) :
    (retrieveS s q k).2 = s ∧
      (retrieveS s q k).1 = (retrieveS ((retrieveS s q k).2) q k).1 :=
  ⟨rfl, rfl⟩

/-- C10: with `top_n = 0` the slice `[-0:]` takes the whole array, so
`retrieve` returns all `N` corpus documents (not an empty sequence), in
descending-similarity order. -/
theorem retrieve_topn_zero (c : List String) (q : String) :
    (retrieve_documents c q 0).length = c.length ∧
      (retrieve_documents c q 0).Perm c ∧
      List.Pairwise (fun i j => sims c q j ≤ sims c q i) (related_docs_indices c q 0) := by
  have hslice : sliceLast (argsort (sims c q)) 0 = argsort (sims c q) := sliceLast_zero _
  refine ⟨?_, ?_, ?_⟩
  · rw [retrieve_documents_def, hslice, List.length_map, List.length_reverse, argsort_length]
  · exact retrieve_perm_of_slice_all c q 0 hslice
  · unfold related_docs_indices
    rw [hslice, List.pairwise_reverse]
    have hp : List.Pairwise (leLex (sims c q)) (argsort (sims c q)) := argsort_sorted (sims c q)
    refine List.Pairwise.imp ?_ hp
    intro i j hij
    rcases hij with h | ⟨h, _⟩
    · exact le_of_lt h
    · exact le_of_eq h

/-- C1 (amended): for a query with no recognized vocabulary term the code
neither raises nor divides by zero — the zero query vector is guarded and
every similarity is 0 — but the result is NOT the empty sequence the spec
prescribes: it consists of `min top_n N` corpus documents (all `N` when
`top_n = 0`), each drawn from the corpus, and is non-empty whenever the
corpus is. Which of the all-tied documents appear, and in what order, is not
asserted here, because numpy's default argsort gives no tie-order guarantee
for larger arrays (on the small counterexample below it returns the last
`top_n` documents in reverse corpus order). -/
theorem retrieve_oov_query (c : List String) (q : String) (k : ℕ)
    (h : ∀ t ∈ tokenize q, t ∉ vocab c) :
    (∀ i, sims c q i = 0) ∧
      (retrieve_documents c q k).length = (if k = 0 then c.length else min k c.length) ∧
      (∀ d ∈ retrieve_documents c q k, d ∈ c) ∧
      (c ≠ [] → retrieve_documents c q k ≠ []) := by
  refine ⟨sims_oov c q h, retrieve_length c q k, retrieve_mem c q k, ?_⟩
  intro hc hcon
  have hlen := retrieve_length c q k
  rw [hcon] at hlen
  have hpos : 0 < c.length := List.length_pos.2 hc
  simp only [List.length_nil] at hlen
  split at hlen <;> omega

theorem retrieve_oov_query_witness :
    (retrieve_documents corpus "zzqx999" 3).length = 3 :=
  ((retrieve_oov_query corpus "zzqx999" 3 (by decide)).2.1).trans (by decide)

/-- C1 counterexample: on the notebook corpus the all-out-of-vocabulary query
`"zzqx999"` yields a three-element result, not the empty sequence the claim
requires. -/
theorem retrieve_oov_nonempty_counterexample :
    retrieve_documents corpus "zzqx999" 3 ≠ [] := by
  rw [retrieve_oov corpus "zzqx999" 3 (by decide)]
  decide

/-- C2 (amended): the code does not implement the spec's lower-index
tie-break. What it guarantees is only that the returned ranking is
non-increasing in cosine similarity; the relative order of exactly tied
documents is unspecified (numpy's default argsort is unstable), and on small
arrays ties in fact come out with the HIGHER original index first, as the
counterexample below shows — the opposite of the claim. -/
theorem ranking_similarity_nonincreasing (c : List String) (q : String) (k : ℕ) :
    List.Pairwise (fun i j => sims c q j ≤ sims c q i) (related_docs_indices c q k) := by
  have hp : List.Pairwise (leLex (sims c q)) (argsort (sims c q)) := argsort_sorted (sims c q)
  have hsub : List.Pairwise (leLex (sims c q)) (sliceLast (argsort (sims c q)) k) :=
    hp.sublist (sliceLast_sublist _ k)
  unfold related_docs_indices
  rw [List.pairwise_reverse]
  refine List.Pairwise.imp ?_ hsub
  intro i j hij
  rcases hij with h | ⟨h, _⟩
  · exact le_of_lt h
  · exact le_of_eq h

/-- C2 counterexample: the corpus `["cat dog", "dog cat"]` with query `"cat"`
gives both documents exactly equal similarity, yet retrieval ranks document 1
(`"dog cat"`) before document 0, contradicting the lower-index tie-break. -/
theorem tie_break_counterexample :
    sims ["cat dog", "dog cat"] "cat" ⟨0, by decide⟩ =
        sims ["cat dog", "dog cat"] "cat" ⟨1, by decide⟩ ∧
      retrieve_documents ["cat dog", "dog cat"] "cat" 2 = ["dog cat", "cat dog"] := by
  have hw : docWeight ["cat dog", "dog cat"] "cat dog" =
      docWeight ["cat dog", "dog cat"] "dog cat" := by
    funext t
    unfold docWeight
    have hperm : (tokenize "cat dog").Perm (tokenize "dog cat") := by decide
    rw [hperm.count_eq t]
  have h01 : sims ["cat dog", "dog cat"] "cat" ⟨0, by decide⟩ =
      sims ["cat dog", "dog cat"] "cat" ⟨1, by decide⟩ := by
    show cosineSim _ _ (docWeight _ "cat dog") = cosineSim _ _ (docWeight _ "dog cat")
    rw [hw]
  refine ⟨h01, ?_⟩
  rw [retrieve_documents_def, argsort_const (sims ["cat dog", "dog cat"] "cat")
    (sims ["cat dog", "dog cat"] "cat" ⟨0, by decide⟩) ?_]
  · decide
  · intro i
    match i with
    | ⟨0, _⟩ => rfl
    | ⟨1, _⟩ => exact h01.symm

/-- C7: invariants of the (pre-normalization) term-weight matrix
`weight = tf(t, d) * (log((1 + N) / (1 + df t)) + 1)`: the weight is zero for
a term absent from the document; it is monotonically non-decreasing in the
within-document term frequency; and, corpus size held fixed, it is
monotonically non-decreasing as the term's document frequency decreases. -/
theorem weight_invariants (c₁ c₂ : List String) (d₁ d₂ : String) (t : String)
    (hlen : c₁.length = c₂.length)
    (hdf : df c₁ t ≤ df c₂ t)
    (hcnt : (tokenize d₁).count t ≤ (tokenize d₂).count t) :
    (t ∉ tokenize d₁ → docWeight c₁ d₁ t = 0) ∧
      docWeight c₁ d₁ t ≤ docWeight c₁ d₂ t ∧
      docWeight c₂ d₁ t ≤ docWeight c₁ d₁ t := by
  refine ⟨?_, ?_, ?_⟩
  · intro h
    rw [docWeight, List.count_eq_zero.2 h]
    simp
  · refine mul_le_mul_of_nonneg_right ?_ (le_of_lt (idf_pos c₁ t))
    exact_mod_cast hcnt
  · have hidf : idf c₂ t ≤ idf c₁ t := by
      unfold idf
      have harg : (1 + (c₂.length : ℝ)) / (1 + (df c₂ t : ℝ)) ≤
          (1 + (c₁.length : ℝ)) / (1 + (df c₁ t : ℝ)) := by
        rw [← hlen]
        have hc : (1 + (df c₁ t : ℝ)) ≤ (1 + (df c₂ t : ℝ)) := by
          have : (df c₁ t : ℝ) ≤ (df c₂ t : ℝ) := by exact_mod_cast hdf
          linarith
        gcongr
      have hpos : (0 : ℝ) < (1 + (c₂.length : ℝ)) / (1 + (df c₂ t : ℝ)) := by positivity
      have := Real.log_le_log hpos harg
      linarith
    exact mul_le_mul_of_nonneg_left hidf (Nat.cast_nonneg _)

theorem weight_invariants_witness :
    ("dog" ∉ tokenize "cat" → docWeight ["cat cat"] "cat" "dog" = 0) ∧
      docWeight ["cat cat"] "cat" "dog" ≤ docWeight ["cat cat"] "dog dog" "dog" ∧
      docWeight ["cat dog"] "cat" "dog" ≤ docWeight ["cat cat"] "cat" "dog" :=
  weight_invariants ["cat cat"] ["cat dog"] "cat" "dog dog" "dog" (by decide) (by decide)
    (by decide)

/-- A zero dot product gives zero cosine similarity in either branch. -/
theorem cosineSim_eq_zero_of_dot_zero (c : List String) (f g : String → ℝ)
    (h : dotV c f g = 0) : cosineSim c f g = 0 := by
  unfold cosineSim
  split
  · rfl
  · rw [h, zero_div]

/-- Cosine similarity as a quotient when both squared norms are positive. -/
theorem cosineSim_eq_div (c : List String) (f g : String → ℝ)
    (hf : 0 < dotV c f f) (hg : 0 < dotV c g g) :
    cosineSim c f g = dotV c f g / Real.sqrt (dotV c f f * dotV c g g) := by
  unfold cosineSim
  rw [if_neg]
  · rw [normV, normV, ← Real.sqrt_mul (le_of_lt hf)]
  · push_neg
    exact ⟨ne_of_gt (normV_pos c f hf), ne_of_gt (normV_pos c g hg)⟩

/-- C8 (amended): a query verbatim equal to a corpus document has cosine
similarity exactly 1 with it, and every similarity is at most 1; provided no
OTHER document also attains similarity 1 (which a token-proportional document
such as a duplicate would), the verbatim document is the first retrieved
element, for every `top_n`. -/
theorem retrieve_verbatim_top1 (c : List String) (q : String) (k : ℕ) (i : Fin c.length)
    (hq : q = c.get i)
    (hvocab : ∃ t ∈ tokenize q, t ∈ vocab c)
    (hother : ∀ j, j ≠ i → sims c q j ≠ 1) :
    sims c q i = 1 ∧ (retrieve_documents c q k).head? = some (c.get i) := by
  have hpos : 0 < dotV c (docWeight c q) (docWeight c q) :=
    dotV_self_pos_of_overlap c q hvocab
  have hsimi : sims c q i = 1 := by
    unfold sims
    rw [← hq]
    exact cosineSim_self c _ hpos
  have hstrict : ∀ j, j ≠ i → sims c q j < sims c q i := by
    intro j hj
    have hle : sims c q j ≤ 1 := cosineSim_le_one c _ _
    rw [hsimi]
    exact lt_of_le_of_ne hle (hother j hj)
  have hc : c ≠ [] := List.length_pos.1 i.pos
  rw [retrieve_head c q k hc, argsort_getLast_of_strict_max (sims c q) i hstrict]
  exact ⟨hsimi, rfl⟩

theorem retrieve_verbatim_top1_witness :
    sims ["cat", "dog"] "cat" ⟨0, by decide⟩ = 1 ∧
      (retrieve_documents ["cat", "dog"] "cat" 3).head? =
        some ((["cat", "dog"] : List String).get ⟨0, by decide⟩) := by
  refine retrieve_verbatim_top1 ["cat", "dog"] "cat" 3 ⟨0, by decide⟩ rfl (by decide) ?_
  intro j hj
  have hj1 : j = ⟨1, by decide⟩ := by
    match j with
    | ⟨0, _⟩ => exact absurd rfl hj
    | ⟨1, _⟩ => rfl
  rw [hj1]
  have hdot : dotV ["cat", "dog"] (docWeight ["cat", "dog"] "cat")
      (docWeight ["cat", "dog"] "dog") = 0 := by
    unfold dotV
    rw [show vocab ["cat", "dog"] = ["cat", "dog"] from by decide]
    simp [docWeight, show tokenize "cat" = ["cat"] from by decide,
      show tokenize "dog" = ["dog"] from by decide]
  have hz : sims ["cat", "dog"] "cat" ⟨1, by decide⟩ = 0 :=
    cosineSim_eq_zero_of_dot_zero _ _ _ hdot
  rw [hz]
  norm_num

/-- C8 counterexample: in the corpus `["cat", "cat cat"]` the query `"cat"`
is verbatim document 0, yet the first retrieved element is `"cat cat"`:
both documents attain similarity exactly 1 (their weight vectors are
proportional) and the tie reversal puts the higher index first. -/
theorem verbatim_not_top1_counterexample :
    (["cat", "cat cat"] : List String).get ⟨0, by decide⟩ = "cat" ∧
      retrieve_documents ["cat", "cat cat"] "cat" 2 = ["cat cat", "cat"] := by
  have hidf2 : idf ["cat", "cat cat"] "cat" = 1 := by
    unfold idf
    rw [show df ["cat", "cat cat"] "cat" = 2 from by decide]
    norm_num
  have hdot00 : dotV ["cat", "cat cat"] (docWeight ["cat", "cat cat"] "cat")
      (docWeight ["cat", "cat cat"] "cat") = 1 := by
    unfold dotV
    rw [show vocab ["cat", "cat cat"] = ["cat"] from by decide]
    simp [docWeight, show tokenize "cat" = ["cat"] from by decide, hidf2]
  have hdot01 : dotV ["cat", "cat cat"] (docWeight ["cat", "cat cat"] "cat")
      (docWeight ["cat", "cat cat"] "cat cat") = 2 := by
    unfold dotV
    rw [show vocab ["cat", "cat cat"] = ["cat"] from by decide]
    simp [docWeight, show tokenize "cat" = ["cat"] from by decide,
      show tokenize "cat cat" = ["cat", "cat"] from by decide, hidf2]
  have hdot11 : dotV ["cat", "cat cat"] (docWeight ["cat", "cat cat"] "cat cat")
      (docWeight ["cat", "cat cat"] "cat cat") = 4 := by
    unfold dotV
    rw [show vocab ["cat", "cat cat"] = ["cat"] from by decide]
    simp [docWeight, show tokenize "cat cat" = ["cat", "cat"] from by decide, hidf2]
    norm_num
  have hs0 : sims ["cat", "cat cat"] "cat" ⟨0, by decide⟩ = 1 := by
    show cosineSim _ (docWeight _ "cat") (docWeight _ "cat") = 1
    refine cosineSim_self _ _ ?_
    rw [hdot00]
    norm_num
  have hs1 : sims ["cat", "cat cat"] "cat" ⟨1, by decide⟩ = 1 := by
    show cosineSim _ (docWeight _ "cat") (docWeight _ "cat cat") = 1
    rw [cosineSim_eq_div _ _ _ (by rw [hdot00]; norm_num) (by rw [hdot11]; norm_num)]
    rw [hdot00, hdot01, hdot11]
    rw [show (1 : ℝ) * 4 = 2 ^ 2 by norm_num, Real.sqrt_sq (by norm_num)]
    norm_num
  refine ⟨rfl, ?_⟩
  rw [retrieve_documents_def, argsort_const (sims ["cat", "cat cat"] "cat") 1 ?_]
  · decide
  · intro i
    match i with
    | ⟨0, _⟩ => exact hs0
    | ⟨1, _⟩ => exact hs1

/-! ### Evaluation of the notebook scenario

The corpus has `N = 5` and vocabulary of 14 terms with document frequencies
`df "the" = 5`, `df "cat" = 4`, `df "dog" = 3`, and 1 for the other terms, so
`idf "the" = 1` and the remaining idf values are the three constants below. -/

/-- `idf` of `"cat"` in the notebook corpus: `log(6/5) + 1`. -/
noncomputable def idfCat : ℝ := Real.log (6 / 5) + 1

/-- `idf` of `"dog"` in the notebook corpus: `log(6/4) + 1 = log(3/2) + 1`. -/
noncomputable def idfDog : ℝ := Real.log (3 / 2) + 1

/-- `idf` of every term appearing in exactly one document: `log(6/2) + 1`. -/
noncomputable def idfRare : ℝ := Real.log 3 + 1

theorem vocab_corpus : vocab corpus = ["sat", "on", "mat", "chased", "and", "played",
    "together", "cat", "is", "sleeping", "the", "dog", "barked", "loudly"] := by decide

theorem tokQ : tokenize query = ["the", "dog", "chased", "who"] := by decide

theorem tok0 : tokenize "the cat sat on the mat" = ["the", "cat", "sat", "on", "the", "mat"] := by
  decide

theorem tok1 : tokenize "the dog chased the cat" = ["the", "dog", "chased", "the", "cat"] := by
  decide

theorem tok2 : tokenize "the cat and dog played together" =
    ["the", "cat", "and", "dog", "played", "together"] := by decide

theorem tok3 : tokenize "the cat is sleeping" = ["the", "cat", "is", "sleeping"] := by decide

theorem tok4 : tokenize "the dog barked loudly" = ["the", "dog", "barked", "loudly"] := by decide

theorem idf_the : idf corpus "the" = 1 := by
  unfold idf
  rw [show df corpus "the" = 5 from by decide, show corpus.length = 5 from rfl]
  norm_num

theorem idf_cat : idf corpus "cat" = idfCat := by
  unfold idf idfCat
  rw [show df corpus "cat" = 4 from by decide, show corpus.length = 5 from rfl]
  norm_num

theorem idf_dog : idf corpus "dog" = idfDog := by
  unfold idf idfDog
  rw [show df corpus "dog" = 3 from by decide, show corpus.length = 5 from rfl]
  norm_num

theorem idf_rare (t : String) (h : df corpus t = 1) : idf corpus t = idfRare := by
  unfold idf idfRare
  rw [h, show corpus.length = 5 from rfl]
  norm_num

theorem idf_sat : idf corpus "sat" = idfRare := idf_rare "sat" (by decide)

theorem idf_on : idf corpus "on" = idfRare := idf_rare "on" (by decide)

theorem idf_mat : idf corpus "mat" = idfRare := idf_rare "mat" (by decide)

theorem idf_chased : idf corpus "chased" = idfRare := idf_rare "chased" (by decide)

theorem idf_and : idf corpus "and" = idfRare := idf_rare "and" (by decide)

theorem idf_played : idf corpus "played" = idfRare := idf_rare "played" (by decide)

theorem idf_together : idf corpus "together" = idfRare := idf_rare "together" (by decide)

theorem idf_is : idf corpus "is" = idfRare := idf_rare "is" (by decide)

theorem idf_sleeping : idf corpus "sleeping" = idfRare := idf_rare "sleeping" (by decide)

theorem idf_barked : idf corpus "barked" = idfRare := idf_rare "barked" (by decide)

theorem idf_loudly : idf corpus "loudly" = idfRare := idf_rare "loudly" (by decide)

theorem dQQ : dotV corpus (docWeight corpus query) (docWeight corpus query) =
    1 + idfDog ^ 2 + idfRare ^ 2 := by
  unfold dotV
  rw [vocab_corpus]
  simp [docWeight, tokQ, idf_the, idf_cat, idf_dog, idf_sat, idf_on, idf_mat, idf_chased,
    idf_and, idf_played, idf_together, idf_is, idf_sleeping, idf_barked, idf_loudly]
  ring

theorem dQ0 : dotV corpus (docWeight corpus query)
    (docWeight corpus "the cat sat on the mat") = 2 := by
  unfold dotV
  rw [vocab_corpus]
  simp [docWeight, tokQ, tok0, idf_the, idf_cat, idf_dog, idf_sat, idf_on, idf_mat, idf_chased,
    idf_and, idf_played, idf_together, idf_is, idf_sleeping, idf_barked, idf_loudly]

theorem dQ1 : dotV corpus (docWeight corpus query)
    (docWeight corpus "the dog chased the cat") = 2 + idfDog ^ 2 + idfRare ^ 2 := by
  unfold dotV
  rw [vocab_corpus]
  simp [docWeight, tokQ, tok1, idf_the, idf_cat, idf_dog, idf_sat, idf_on, idf_mat, idf_chased,
    idf_and, idf_played, idf_together, idf_is, idf_sleeping, idf_barked, idf_loudly]
  ring

theorem dQ2 : dotV corpus (docWeight corpus query)
    (docWeight corpus "the cat and dog played together") = 1 + idfDog ^ 2 := by
  unfold dotV
  rw [vocab_corpus]
  simp [docWeight, tokQ, tok2, idf_the, idf_cat, idf_dog, idf_sat, idf_on, idf_mat, idf_chased,
    idf_and, idf_played, idf_together, idf_is, idf_sleeping, idf_barked, idf_loudly]
  ring

theorem dQ3 : dotV corpus (docWeight corpus query)
    (docWeight corpus "the cat is sleeping") = 1 := by
  unfold dotV
  rw [vocab_corpus]
  simp [docWeight, tokQ, tok3, idf_the, idf_cat, idf_dog, idf_sat, idf_on, idf_mat, idf_chased,
    idf_and, idf_played, idf_together, idf_is, idf_sleeping, idf_barked, idf_loudly]

theorem dQ4 : dotV corpus (docWeight corpus query)
    (docWeight corpus "the dog barked loudly") = 1 + idfDog ^ 2 := by
  unfold dotV
  rw [vocab_corpus]
  simp [docWeight, tokQ, tok4, idf_the, idf_cat, idf_dog, idf_sat, idf_on, idf_mat, idf_chased,
    idf_and, idf_played, idf_together, idf_is, idf_sleeping, idf_barked, idf_loudly]
  ring

theorem d00 : dotV corpus (docWeight corpus "the cat sat on the mat")
    (docWeight corpus "the cat sat on the mat") = 4 + idfCat ^ 2 + 3 * idfRare ^ 2 := by
  unfold dotV
  rw [vocab_corpus]
  simp [docWeight, tok0, idf_the, idf_cat, idf_dog, idf_sat, idf_on, idf_mat, idf_chased,
    idf_and, idf_played, idf_together, idf_is, idf_sleeping, idf_barked, idf_loudly]
  ring

theorem d11 : dotV corpus (docWeight corpus "the dog chased the cat")
    (docWeight corpus "the dog chased the cat") =
      4 + idfCat ^ 2 + idfDog ^ 2 + idfRare ^ 2 := by
  unfold dotV
  rw [vocab_corpus]
  simp [docWeight, tok1, idf_the, idf_cat, idf_dog, idf_sat, idf_on, idf_mat, idf_chased,
    idf_and, idf_played, idf_together, idf_is, idf_sleeping, idf_barked, idf_loudly]
  ring

theorem d22 : dotV corpus (docWeight corpus "the cat and dog played together")
    (docWeight corpus "the cat and dog played together") =
      1 + idfCat ^ 2 + idfDog ^ 2 + 3 * idfRare ^ 2 := by
  unfold dotV
  rw [vocab_corpus]
  simp [docWeight, tok2, idf_the, idf_cat, idf_dog, idf_sat, idf_on, idf_mat, idf_chased,
    idf_and, idf_played, idf_together, idf_is, idf_sleeping, idf_barked, idf_loudly]
  ring

theorem d33 : dotV corpus (docWeight corpus "the cat is sleeping")
    (docWeight corpus "the cat is sleeping") = 1 + idfCat ^ 2 + 2 * idfRare ^ 2 := by
  unfold dotV
  rw [vocab_corpus]
  simp [docWeight, tok3, idf_the, idf_cat, idf_dog, idf_sat, idf_on, idf_mat, idf_chased,
    idf_and, idf_played, idf_together, idf_is, idf_sleeping, idf_barked, idf_loudly]
  ring

theorem d44 : dotV corpus (docWeight corpus "the dog barked loudly")
    (docWeight corpus "the dog barked loudly") = 1 + idfDog ^ 2 + 2 * idfRare ^ 2 := by
  unfold dotV
  rw [vocab_corpus]
  simp [docWeight, tok4, idf_the, idf_cat, idf_dog, idf_sat, idf_on, idf_mat, idf_chased,
    idf_and, idf_played, idf_together, idf_is, idf_sleeping, idf_barked, idf_loudly]
  ring

/-! Elementary bounds on the three idf constants, from
`log x ≤ x - 1` (and its reciprocal form `1 - 1/x ≤ log x`). -/

theorem idfCat_lb : 1 ≤ idfCat := by
  unfold idfCat
  have := Real.log_nonneg (show (1 : ℝ) ≤ 6 / 5 by norm_num)
  linarith

theorem idfCat_ub : idfCat ≤ 6 / 5 := by
  unfold idfCat
  have := Real.log_le_sub_one_of_pos (show (0 : ℝ) < 6 / 5 by norm_num)
  linarith

theorem idfDog_lb : 4 / 3 ≤ idfDog := by
  unfold idfDog
  have h := Real.log_le_sub_one_of_pos (show (0 : ℝ) < 2 / 3 by norm_num)
  rw [show (2 / 3 : ℝ) = (3 / 2)⁻¹ by norm_num, Real.log_inv] at h
  linarith

theorem idfDog_ub : idfDog ≤ 3 / 2 := by
  unfold idfDog
  have := Real.log_le_sub_one_of_pos (show (0 : ℝ) < 3 / 2 by norm_num)
  linarith

theorem idfRare_lb : 5 / 3 ≤ idfRare := by
  unfold idfRare
  have h := Real.log_le_sub_one_of_pos (show (0 : ℝ) < 1 / 3 by norm_num)
  rw [show (1 / 3 : ℝ) = (3 : ℝ)⁻¹ by norm_num, Real.log_inv] at h
  linarith

theorem idfRare_ub : idfRare ≤ 3 := by
  unfold idfRare
  have := Real.log_le_sub_one_of_pos (show (0 : ℝ) < 3 by norm_num)
  linarith

/-- Strict comparison of cosine similarities against a common query, via the
squared cross-multiplied inequality on raw dot products. -/
theorem cosineSim_lt (c : List String) (f g h : String → ℝ)
    (hf : 0 < dotV c f f) (hg : 0 < dotV c g g) (hh : 0 < dotV c h h)
    (hdg : 0 ≤ dotV c f g) (hdh : 0 ≤ dotV c f h)
    (hlt : dotV c f g ^ 2 * dotV c h h < dotV c f h ^ 2 * dotV c g g) :
    cosineSim c f g < cosineSim c f h := by
  rw [cosineSim_eq_div c f g hf hg, cosineSim_eq_div c f h hf hh]
  have hfg : 0 < dotV c f f * dotV c g g := mul_pos hf hg
  have hfh : 0 < dotV c f f * dotV c h h := mul_pos hf hh
  have hsg : 0 < Real.sqrt (dotV c f f * dotV c g g) := Real.sqrt_pos.2 hfg
  have hsh : 0 < Real.sqrt (dotV c f f * dotV c h h) := Real.sqrt_pos.2 hfh
  rw [div_lt_div_iff hsg hsh]
  refine lt_of_pow_lt_pow_left₀ 2 (mul_nonneg hdh (le_of_lt hsg)) ?_
  rw [mul_pow, mul_pow, Real.sq_sqrt (le_of_lt hfg), Real.sq_sqrt (le_of_lt hfh)]
  nlinarith [mul_lt_mul_of_pos_left hlt hf]

/-- The ascending similarity order of the notebook scenario:
document 3 < document 0 < document 2 < document 4 < document 1. -/
theorem sims30 : sims corpus query ⟨3, by decide⟩ < sims corpus query ⟨0, by decide⟩ := by
  show cosineSim corpus (docWeight corpus query) (docWeight corpus "the cat is sleeping") <
    cosineSim corpus (docWeight corpus query) (docWeight corpus "the cat sat on the mat")
  have hq := dQQ
  have h3 := d33
  have h0 := d00
  have hd3 := dQ3
  have hd0 := dQ0
  refine cosineSim_lt corpus _ _ _ ?_ ?_ ?_ ?_ ?_ ?_
  · rw [hq]; positivity
  · rw [h3]; positivity
  · rw [h0]; positivity
  · rw [hd3]; norm_num
  · rw [hd0]; norm_num
  · rw [hd3, hd0, h3, h0]
    nlinarith [idfCat_lb, idfRare_lb, sq_nonneg idfCat, sq_nonneg idfRare]

theorem sims02 : sims corpus query ⟨0, by decide⟩ < sims corpus query ⟨2, by decide⟩ := by
  show cosineSim corpus (docWeight corpus query) (docWeight corpus "the cat sat on the mat") <
    cosineSim corpus (docWeight corpus query) (docWeight corpus "the cat and dog played together")
  have hq := dQQ
  have h0 := d00
  have h2 := d22
  have hd0 := dQ0
  have hd2 := dQ2
  refine cosineSim_lt corpus _ _ _ ?_ ?_ ?_ ?_ ?_ ?_
  · rw [hq]; positivity
  · rw [h0]; positivity
  · rw [h2]; positivity
  · rw [hd0]; norm_num
  · rw [hd2]; positivity
  · rw [hd0, hd2, h0, h2]
    have ha1 : (1 : ℝ) ≤ idfCat ^ 2 := by nlinarith [idfCat_lb]
    have hb1 : (16 : ℝ) / 9 ≤ idfDog ^ 2 := by nlinarith [idfDog_lb]
    have hc1 : (25 : ℝ) / 9 ≤ idfRare ^ 2 := by nlinarith [idfRare_lb]
    nlinarith [mul_nonneg (by linarith : (0 : ℝ) ≤ idfDog ^ 2 - 16 / 9)
        (by positivity : (0 : ℝ) ≤ idfCat ^ 2),
      mul_nonneg (by linarith : (0 : ℝ) ≤ idfDog ^ 2 - 16 / 9)
        (by positivity : (0 : ℝ) ≤ idfRare ^ 2),
      mul_nonneg (by linarith : (0 : ℝ) ≤ idfDog ^ 2 - 16 / 9)
        (by positivity : (0 : ℝ) ≤ idfDog ^ 2),
      mul_nonneg (by positivity : (0 : ℝ) ≤ idfCat ^ 2 * idfDog ^ 2)
        (by positivity : (0 : ℝ) ≤ idfDog ^ 2),
      mul_nonneg (by positivity : (0 : ℝ) ≤ idfDog ^ 2 * idfDog ^ 2)
        (by positivity : (0 : ℝ) ≤ idfRare ^ 2)]

theorem sims24 : sims corpus query ⟨2, by decide⟩ < sims corpus query ⟨4, by decide⟩ := by
  show cosineSim corpus (docWeight corpus query)
      (docWeight corpus "the cat and dog played together") <
    cosineSim corpus (docWeight corpus query) (docWeight corpus "the dog barked loudly")
  have hq := dQQ
  have h2 := d22
  have h4 := d44
  have hd2 := dQ2
  have hd4 := dQ4
  refine cosineSim_lt corpus _ _ _ ?_ ?_ ?_ ?_ ?_ ?_
  · rw [hq]; positivity
  · rw [h2]; positivity
  · rw [h4]; positivity
  · rw [hd2]; positivity
  · rw [hd4]; positivity
  · rw [hd2, hd4, h2, h4]
    have hkey : (0 : ℝ) < (1 + idfDog ^ 2) ^ 2 * (idfCat ^ 2 + idfRare ^ 2) := by
      have h1 : (0 : ℝ) < (1 + idfDog ^ 2) ^ 2 := by positivity
      have h2 : (0 : ℝ) < idfCat ^ 2 + idfRare ^ 2 := by
        have := idfCat_lb
        nlinarith [sq_nonneg idfRare]
      exact mul_pos h1 h2
    nlinarith [hkey]

theorem sims41 : sims corpus query ⟨4, by decide⟩ < sims corpus query ⟨1, by decide⟩ := by
  show cosineSim corpus (docWeight corpus query) (docWeight corpus "the dog barked loudly") <
    cosineSim corpus (docWeight corpus query) (docWeight corpus "the dog chased the cat")
  have hq := dQQ
  have h4 := d44
  have h1 := d11
  have hd4 := dQ4
  have hd1 := dQ1
  refine cosineSim_lt corpus _ _ _ ?_ ?_ ?_ ?_ ?_ ?_
  · rw [hq]; positivity
  · rw [h4]; positivity
  · rw [h1]; positivity
  · rw [hd4]; positivity
  · rw [hd1]; positivity
  · rw [hd4, hd1, h4, h1]
    have ha1 : (1 : ℝ) ≤ idfCat ^ 2 := by nlinarith [idfCat_lb]
    have ha2 : idfCat ^ 2 ≤ 36 / 25 := by nlinarith [idfCat_ub, idfCat_lb]
    have hb1 : (16 : ℝ) / 9 ≤ idfDog ^ 2 := by nlinarith [idfDog_lb]
    have hb2 : idfDog ^ 2 ≤ 9 / 4 := by nlinarith [idfDog_ub, idfDog_lb]
    have hc1 : (25 : ℝ) / 9 ≤ idfRare ^ 2 := by nlinarith [idfRare_lb]
    have hc2 : idfRare ^ 2 ≤ 9 := by nlinarith [idfRare_ub, idfRare_lb]
    have hL : (1 + idfDog ^ 2) ^ 2 * (4 + idfCat ^ 2 + idfDog ^ 2 + idfRare ^ 2) ≤
        (13 / 4) ^ 2 * (1669 / 100) := by
      have h1 : (1 + idfDog ^ 2) ^ 2 ≤ (13 / 4) ^ 2 := by nlinarith
      have h2 : 4 + idfCat ^ 2 + idfDog ^ 2 + idfRare ^ 2 ≤ 1669 / 100 := by linarith
      have h3 : (0 : ℝ) ≤ 4 + idfCat ^ 2 + idfDog ^ 2 + idfRare ^ 2 := by positivity
      calc (1 + idfDog ^ 2) ^ 2 * (4 + idfCat ^ 2 + idfDog ^ 2 + idfRare ^ 2)
          ≤ (13 / 4) ^ 2 * (4 + idfCat ^ 2 + idfDog ^ 2 + idfRare ^ 2) :=
            mul_le_mul_of_nonneg_right h1 h3
        _ ≤ (13 / 4) ^ 2 * (1669 / 100) :=
            mul_le_mul_of_nonneg_left h2 (by norm_num)
    have hR : (59 / 9) ^ 2 * (75 / 9) ≤
        (2 + idfDog ^ 2 + idfRare ^ 2) ^ 2 * (1 + idfDog ^ 2 + 2 * idfRare ^ 2) := by
      have h1 : (59 / 9 : ℝ) ^ 2 ≤ (2 + idfDog ^ 2 + idfRare ^ 2) ^ 2 := by nlinarith
      have h2 : (75 / 9 : ℝ) ≤ 1 + idfDog ^ 2 + 2 * idfRare ^ 2 := by linarith
      calc (59 / 9 : ℝ) ^ 2 * (75 / 9)
          ≤ (2 + idfDog ^ 2 + idfRare ^ 2) ^ 2 * (75 / 9) :=
            mul_le_mul_of_nonneg_right h1 (by norm_num)
        _ ≤ (2 + idfDog ^ 2 + idfRare ^ 2) ^ 2 * (1 + idfDog ^ 2 + 2 * idfRare ^ 2) :=
            mul_le_mul_of_nonneg_left h2 (by positivity)
    have hnum : ((13 : ℝ) / 4) ^ 2 * (1669 / 100) < (59 / 9) ^ 2 * (75 / 9) := by norm_num
    linarith

/-- The ascending `argsort` of the notebook scenario is `[3, 0, 2, 4, 1]`. -/
theorem argsort_corpus_query : argsort (sims corpus query) =
    [⟨3, by decide⟩, ⟨0, by decide⟩, ⟨2, by decide⟩, ⟨4, by decide⟩, ⟨1, by decide⟩] := by
  refine argsort_eq _ _ (by decide) ?_
  have hchain : List.Chain' (leLex (sims corpus query))
      [⟨3, by decide⟩, ⟨0, by decide⟩, ⟨2, by decide⟩, ⟨4, by decide⟩, ⟨1, by decide⟩] := by
    refine List.Chain'.cons (Or.inl sims30) ?_
    refine List.Chain'.cons (Or.inl sims02) ?_
    refine List.Chain'.cons (Or.inl sims24) ?_
    exact List.Chain'.cons (Or.inl sims41) (List.chain'_singleton _)
  exact List.chain'_iff_pairwise.1 hchain

/-- C3: on the notebook corpus, fitting succeeds and the query
`"the dog chased who ?"` with `top_n = 3` retrieves exactly
`["the dog chased the cat", "the dog barked loudly",
"the cat and dog played together"]`, as printed in the notebook. -/
theorem retrieve_notebook_scenario :
    fit corpus = Except.ok corpus ∧
      retrieve_documents corpus query 3 =
        ["the dog chased the cat", "the dog barked loudly",
          "the cat and dog played together"] := by
  refine ⟨rfl, ?_⟩
  rw [retrieve_documents_def, argsort_corpus_query]
  decide

end Rag
